import Mathlib

/-!
Shallow embedding of the `ThreadSafeStructs` Go program: a mutable
`UserData` entity with getters/setters and JSON serialization, and a
`UsersCache` registry keyed by user id, with lookup, bulk insertion,
point-in-time copy and a filter/map/reduce aggregation.

Go's `map[string]*UserData` is modelled as an association list kept in
first-insertion order (a deterministic refinement of Go's unspecified
iteration order); `nil` pointers are modelled as `none`.  The mutexes
serialize every operation, so each operation is embedded as a pure
function on the state; concurrent schedules of lock-protected critical
sections are modelled as arbitrary sequential interleavings of those
atomic operations.  Go `int64` arithmetic wraps; `wrap64` makes that
explicit where arithmetic on `Experience` happens.
-/

set_option autoImplicit false

/-- The `UserData` struct: `UserId`, `DisplayName`, `GameLevel`,
`Experience` (int64) and `UserInternalData` (tagged `json:"-"`).
The `sync.RWMutex` field has no observable content and is dropped. -/
structure UserData where
  UserId : String
  DisplayName : String
  GameLevel : Int
  Experience : Int
  UserInternalData : String
deriving DecidableEq, Repr

/-- `NewUserData`: constructs a `UserData` with the given values;
`UserInternalData` is left at its zero value `""`. -/
def NewUserData (userId : String) (displayName : String) (gameLevel : Int)
    (experience : Int) : UserData :=
  { UserId := userId, DisplayName := displayName, GameLevel := gameLevel,
    Experience := experience, UserInternalData := "" }

/-- `GetDisplayName`: reads the field under the entity's shared lock. -/
def UserData.GetDisplayName (u : UserData) : String := u.DisplayName

/-- `SetDisplayName`: overwrites the field under the exclusive lock. -/
def UserData.SetDisplayName (u : UserData) (displayName : String) : UserData :=
  { u with DisplayName := displayName }

/-- `GetGameLevel`: reads the field under the entity's shared lock. -/
def UserData.GetGameLevel (u : UserData) : Int := u.GameLevel

/-- `SetGameLevel`: overwrites the field under the exclusive lock. -/
def UserData.SetGameLevel (u : UserData) (gameLevel : Int) : UserData :=
  { u with GameLevel := gameLevel }

/-- `GetExperience`: reads the field under the entity's shared lock. -/
def UserData.GetExperience (u : UserData) : Int := u.Experience

/-- `SetExperience`: overwrites the field under the exclusive lock. -/
def UserData.SetExperience (u : UserData) (value : Int) : UserData :=
  { u with Experience := value }

/-- `UpdateData`: holds the entity's exclusive lock while running the
caller-supplied mutation, so the whole mutation is one atomic step. -/
def UserData.UpdateData (u : UserData) (operation : UserData → UserData) : UserData :=
  operation u

/-- Two's-complement wrap-around of Go `int64` arithmetic. -/
def wrap64 (n : Int) : Int :=
  (n + 2 ^ 63) % 2 ^ 64 - 2 ^ 63

/-- One lowercase hex digit, as used by Go's JSON `\u00XX` escapes. -/
def hexDigit (n : Nat) : Char :=
  if n < 10 then Char.ofNat (48 + n) else Char.ofNat (87 + n)

/-- How `encoding/json` escapes a single character inside a string
value: quote, backslash, the HTML-sensitive `<` `>` `&`, control
characters, and U+2028/U+2029. -/
def goEscapeChar (c : Char) : String :=
  if c = '"' then "\\\""
  else if c = '\\' then "\\\\"
  else if c = '\n' then "\\n"
  else if c = '\r' then "\\r"
  else if c = '\t' then "\\t"
  else if c = '<' then "\\u003c"
  else if c = '>' then "\\u003e"
  else if c = '&' then "\\u0026"
  else if c.toNat < 0x20 then
    String.mk ['\\', 'u', '0', '0', hexDigit (c.toNat / 16), hexDigit (c.toNat % 16)]
  else if c.toNat = 0x2028 then "\\u2028"
  else if c.toNat = 0x2029 then "\\u2029"
  else String.singleton c

/-- Escape every character of a Go string for JSON output. -/
def goEscape (s : String) : String :=
  s.data.foldl (fun acc c => acc ++ goEscapeChar c) ""

/-- A JSON string literal: escaped content between double quotes. -/
def jsonQuote (s : String) : String :=
  "\"" ++ goEscape s ++ "\""

/-- `json.Marshal` on a `*UserData`: emits the struct fields in
declaration order under their `json:` tag names — `uid`,
`display_name`, `game_level`, `experience` — and skips
`UserInternalData`, which is tagged `json:"-"`.  Marshalling this
struct never returns an error, so the result is always `some`. -/
def jsonMarshal (u : UserData) : Option String :=
  some ("\x7b\"uid\":" ++ jsonQuote u.UserId
    ++ ",\"display_name\":" ++ jsonQuote u.DisplayName
    ++ ",\"game_level\":" ++ toString u.GameLevel
    ++ ",\"experience\":" ++ toString u.Experience
    ++ "\x7d")

/-- `MustStringify`: returns the marshalled bytes as a string, or `""`
when marshalling reported an error, never propagating the failure. -/
def MustStringify (bytea : Option String) : String :=
  match bytea with
  | none => ""
  | some s => s

/-- `ToApi`: serializes the entity under its shared lock. -/
def UserData.ToApi (u : UserData) : String :=
  MustStringify (jsonMarshal u)

/-- The `UsersCache` registry: `userDataById`, a map from user id to
entity, modelled as an association list in first-insertion order.
The `sync.RWMutex` field is dropped. -/
structure UsersCache where
  userDataById : List (String × UserData)
deriving DecidableEq, Repr

/-- Go map assignment `m[k] = v`: overwrite the entry for `k` in place
if present, otherwise add a new one. -/
def mapInsert : List (String × UserData) → String → UserData → List (String × UserData)
  | [], k, v => [(k, v)]
  | (k', v') :: rest, k, v =>
    if k' = k then (k, v) :: rest else (k', v') :: mapInsert rest k v

/-- Go map read `m[k]`: the stored value, or `none` (nil) when absent. -/
def mapLookup : List (String × UserData) → String → Option UserData
  | [], _ => none
  | (k', v') :: rest, k => if k' = k then some v' else mapLookup rest k

/-- `NewUsersCache`: a registry with an empty map. -/
def NewUsersCache : UsersCache :=
  { userDataById := [] }

/-- `GetUserData`: under the registry's shared lock, looks up the id and
returns the reference (nil = `none` when absent) with the found flag. -/
def UsersCache.GetUserData (uc : UsersCache) (userId : String) : Option UserData × Bool :=
  match mapLookup uc.userDataById userId with
  | some userData => (some userData, true)
  | none => (none, false)

/-- `AddUserData`: under the registry's exclusive lock, inserts or
overwrites each entity keyed by its `UserId`, in argument order. -/
def UsersCache.AddUserData (uc : UsersCache) (users : List UserData) : UsersCache :=
  { userDataById := users.foldl (fun m user => mapInsert m user.UserId user) uc.userDataById }

/-- `GetSafeCopySlice`, as written in the source: allocates
`make([]*UserData, len(m))` — a slice already holding `len(m)` nil
pointers — and then `append`s every entry to it. -/
def UsersCache.GetSafeCopySlice (uc : UsersCache) : List (Option UserData) :=
  uc.userDataById.foldl (fun res p => res ++ [some p.2])
    (List.replicate uc.userDataById.length none)

/-- `MapReduceUsersWithFilter`: under the registry's shared lock,
appends `mapper userData` to `mappedResults` for every entry passing
`filter`, then returns `reducer mappedResults`.  Go's `interface{}`
element and result types become type parameters `R` and `A`. -/
def UsersCache.MapReduceUsersWithFilter {R A : Type}
    (uc : UsersCache) (filter : UserData → Bool)
    (mapper : UserData → R) (reducer : List R → A) : A :=
  reducer (uc.userDataById.foldl
    (fun mappedResults p =>
      if filter p.2 then mappedResults ++ [mapper p.2] else mappedResults)
    [])

/-- `excludeJohnFilter`: keep users whose display name is not "John". -/
def excludeJohnFilter (userData : UserData) : Bool :=
  userData.GetDisplayName != "John"

/-- Go map read with the zero value `0` for an absent key, as in
`levelData["level"]`. -/
def strMapGet (m : List (String × Int)) (k : String) : Int :=
  match m.lookup k with
  | some v => v
  | none => 0

/-- `userLevelMapper`: `map[string]int{"level": level, "count": 1}`. -/
def userLevelMapper (userData : UserData) : List (String × Int) :=
  [("level", userData.GetGameLevel), ("count", 1)]

/-- Go `levelCounts[level] += count` on a `map[int]int`: a missing key
reads as `0`, so the entry becomes `count`; otherwise it is increased. -/
def intMapAdd : List (Int × Int) → Int → Int → List (Int × Int)
  | [], k, c => [(k, c)]
  | (k', c') :: rest, k, c =>
    if k' = k then (k', c' + c) :: rest else (k', c') :: intMapAdd rest k c

/-- `levelCountReducer`: folds the mapped `{"level": l, "count": c}`
records into a `map[int]int` of per-level counts. -/
def levelCountReducer (results : List (List (String × Int))) : List (Int × Int) :=
  results.foldl
    (fun levelCounts levelData =>
      intMapAdd levelCounts (strMapGet levelData "level") (strMapGet levelData "count"))
    []

/-- `LoadUsersDataFromDB`: bulk-inserts the four demo users; the Go
function always returns a nil error, so only the new state is returned. -/
def LoadUsersDataFromDB (usersCache : UsersCache) : UsersCache :=
  usersCache.AddUserData
    [NewUserData "uid_001" "king" 1 100,
     NewUserData "uid_002" "queen" 1 110,
     NewUserData "uid_003" "soldier" 1 120,
     NewUserData "uid_004" "John" 1 120]

/-- Registry operations, for stating invariants over arbitrary call
sequences.  `add` is `AddUserData`, the only operation that changes the
membership map; `get`, `safeCopy` and `mapReduce` are the read-only
operations (`GetUserData`, `GetSafeCopySlice`,
`MapReduceUsersWithFilter`), which return results but leave the map
untouched. -/
inductive RegistryOp where
  | add (users : List UserData)
  | get (userId : String)
  | safeCopy
  | mapReduce (filter : UserData → Bool)

/-- Effect of one registry operation on the registry state. -/
def execOp (uc : UsersCache) : RegistryOp → UsersCache
  | .add users => uc.AddUserData users
  | .get _ => uc
  | .safeCopy => uc
  | .mapReduce _ => uc

/-- Effect of a sequence of registry operations, first one first. -/
def execOps (uc : UsersCache) (ops : List RegistryOp) : UsersCache :=
  ops.foldl execOp uc

/-- A concurrent batch of `UpdateData` calls: each critical section is
atomic under the entity's exclusive lock, so any concurrent schedule is
some sequential order of the operations. -/
def runUpdates (u : UserData) (ops : List (UserData → UserData)) : UserData :=
  ops.foldl UserData.UpdateData u

/-- The mutation from the spec's lost-update property: add a fixed
increment `k` to `Experience`, in Go's wrapping int64 arithmetic. -/
def incExperience (k : Int) (u : UserData) : UserData :=
  { u with Experience := wrap64 (u.Experience + k) }

/-! ### Helper lemmas -/

theorem mapLookup_mapInsert_self (m : List (String × UserData)) (k : String) (v : UserData) :
    mapLookup (mapInsert m k v) k = some v := by
  induction m with
  | nil => simp [mapInsert, mapLookup]
  | cons p rest ih =>
    by_cases h : p.1 = k <;> simp [mapInsert, mapLookup, h, ih]

theorem mapLookup_mapInsert_ne (m : List (String × UserData)) (k' k : String) (v : UserData)
    (h : k' ≠ k) : mapLookup (mapInsert m k' v) k = mapLookup m k := by
  induction m with
  | nil => simp [mapInsert, mapLookup, h]
  | cons p rest ih =>
    by_cases hp : p.1 = k' <;> simp [mapInsert, mapLookup, hp, h, ih]

theorem mapLookup_foldl_of_no_key (l : List UserData) (k : String) :
    ∀ m : List (String × UserData), (∀ v ∈ l, v.UserId ≠ k) →
      mapLookup (l.foldl (fun m user => mapInsert m user.UserId user) m) k = mapLookup m k := by
  induction l with
  | nil => intro m _; rfl
  | cons u rest ih =>
    intro m h
    simp only [List.foldl_cons]
    rw [ih _ fun v hv => h v (List.mem_cons_of_mem u hv),
      mapLookup_mapInsert_ne _ _ _ _ (h u (List.mem_cons_self u rest))]

theorem mapInsert_mapInsert_self (m : List (String × UserData)) (k : String) (v : UserData) :
    mapInsert (mapInsert m k v) k v = mapInsert m k v := by
  induction m with
  | nil => simp [mapInsert]
  | cons p rest ih =>
    by_cases h : p.1 = k <;> simp [mapInsert, h, ih]

theorem mem_mapInsert (m : List (String × UserData)) (k : String) (v : UserData)
    (p : String × UserData) (hp : p ∈ mapInsert m k v) : p = (k, v) ∨ p ∈ m := by
  induction m with
  | nil => simpa [mapInsert] using hp
  | cons q rest ih =>
    by_cases h : q.1 = k
    · rw [mapInsert, if_pos h] at hp
      rcases List.mem_cons.mp hp with h' | h'
      · exact Or.inl h'
      · exact Or.inr (List.mem_cons_of_mem q h')
    · rw [mapInsert, if_neg h] at hp
      rcases List.mem_cons.mp hp with h' | h'
      · exact Or.inr (h' ▸ List.mem_cons_self q rest)
      · rcases ih h' with h'' | h''
        · exact Or.inl h''
        · exact Or.inr (List.mem_cons_of_mem q h'')

theorem foldl_append_singleton {α β : Type} (f : α → β) (l : List α) :
    ∀ acc : List β, l.foldl (fun res a => res ++ [f a]) acc = acc ++ l.map f := by
  induction l with
  | nil => intro acc; simp
  | cons a rest ih => intro acc; simp [ih]

theorem foldl_filter_map_singleton {R : Type} (f : UserData → Bool) (m : UserData → R)
    (l : List (String × UserData)) :
    ∀ acc : List R,
      l.foldl (fun acc p => if f p.2 then acc ++ [m p.2] else acc) acc
        = acc ++ ((l.map Prod.snd).filter f).map m := by
  induction l with
  | nil => intro acc; simp
  | cons p rest ih =>
    intro acc
    by_cases h : f p.2 <;> simp [h, ih]

theorem wrap64_eq_self (n : Int) (h₁ : -2 ^ 63 ≤ n) (h₂ : n < 2 ^ 63) : wrap64 n = n := by
  unfold wrap64
  omega

theorem wrap64_lb (n : Int) : -2 ^ 63 ≤ wrap64 n := by
  unfold wrap64
  omega

theorem wrap64_ub (n : Int) : wrap64 n < 2 ^ 63 := by
  unfold wrap64
  omega

theorem wrap64_wrap64_add (a b : Int) : wrap64 (wrap64 a + b) = wrap64 (a + b) := by
  unfold wrap64
  omega

theorem runUpdates_incExperience (k : Int) (ops : List (UserData → UserData)) :
    ∀ u : UserData, (∀ f ∈ ops, f = incExperience k) →
      -2 ^ 63 ≤ u.Experience → u.Experience < 2 ^ 63 →
      (runUpdates u ops).Experience = wrap64 (u.Experience + ops.length * k) := by
  induction ops with
  | nil =>
    intro u _ h₁ h₂
    simp [runUpdates, wrap64_eq_self u.Experience h₁ h₂]
  | cons f rest ih =>
    intro u h h₁ h₂
    have hf : f = incExperience k := h f (List.mem_cons_self f rest)
    have step : runUpdates u (f :: rest) = runUpdates (incExperience k u) rest := by
      simp [runUpdates, UserData.UpdateData, hf]
    have hrest : ∀ g ∈ rest, g = incExperience k :=
      fun g hg => h g (List.mem_cons_of_mem f hg)
    have hexp : (incExperience k u).Experience = wrap64 (u.Experience + k) := rfl
    rw [step, ih (incExperience k u) hrest (hexp ▸ wrap64_lb _) (hexp ▸ wrap64_ub _), hexp,
      wrap64_wrap64_add]
    congr 1
    simp only [List.length_cons]
    push_cast
    ring

theorem mapLookup_of_no_key (m : List (String × UserData)) (k : String)
    (h : ∀ p ∈ m, p.1 ≠ k) : mapLookup m k = none := by
  induction m with
  | nil => rfl
  | cons p rest ih =>
    rw [mapLookup, if_neg (h p (List.mem_cons_self p rest))]
    exact ih fun q hq => h q (List.mem_cons_of_mem p hq)

/-- Every key of the map equals the `UserId` of the entity it maps to. -/
def KeysMatch (m : List (String × UserData)) : Prop :=
  ∀ p ∈ m, p.1 = p.2.UserId

theorem keysMatch_mapInsert (m : List (String × UserData)) (u : UserData)
    (h : KeysMatch m) : KeysMatch (mapInsert m u.UserId u) := by
  intro p hp
  rcases mem_mapInsert m u.UserId u p hp with h' | h'
  · rw [h']
  · exact h p h'

theorem keysMatch_addUserData (uc : UsersCache) (users : List UserData)
    (h : KeysMatch uc.userDataById) : KeysMatch (uc.AddUserData users).userDataById := by
  rw [UsersCache.AddUserData]
  induction users generalizing uc with
  | nil => exact h
  | cons u rest ih =>
    simpa using ih { userDataById := mapInsert uc.userDataById u.UserId u }
      (keysMatch_mapInsert _ u h)

theorem keysMatch_execOps (ops : List RegistryOp) :
    ∀ uc : UsersCache, KeysMatch uc.userDataById → KeysMatch (execOps uc ops).userDataById := by
  induction ops with
  | nil => intro uc h; exact h
  | cons op rest ih =>
    intro uc h
    cases op with
    | add users => exact ih _ (keysMatch_addUserData uc users h)
    | get _ => exact ih _ h
    | safeCopy => exact ih _ h
    | mapReduce _ => exact ih _ h

theorem getSafeCopySlice_eq (uc : UsersCache) :
    uc.GetSafeCopySlice
      = List.replicate uc.userDataById.length none
        ++ uc.userDataById.map (fun p => some p.2) :=
  foldl_append_singleton (fun (p : String × UserData) => some p.2) uc.userDataById
    (List.replicate uc.userDataById.length none)

/-! ### Claim theorems -/

/-- C1: the claim says `GetSafeCopySlice` on a registry with N entries
returns a sequence of exactly N distinct entity references.  The code
pre-sizes the slice to N nil pointers and then appends, so the result
has length 2·N, the first N elements being nil: on the one-entry
registry it returns a two-element slice whose head is nil. -/
theorem getSafeCopySlice_returns_double_length :
    (∀ uc : UsersCache, uc.GetSafeCopySlice.length = 2 * uc.userDataById.length) ∧
    (NewUsersCache.AddUserData [NewUserData "uid_001" "king" 1 100]).GetSafeCopySlice
      = [none, some (NewUserData "uid_001" "king" 1 100)] := by
  constructor
  · intro uc
    rw [getSafeCopySlice_eq]
    simp only [List.length_append, List.length_replicate, List.length_map]
    omega
  · decide

/-- C2: `MapReduceUsersWithFilter` applies `reducer` exactly once, to
the sequence obtained by mapping `mapper` over exactly the entries that
pass `filter`, and returns the reducer's result; on the empty registry
it returns `reducer []`. -/
theorem mapReduceUsersWithFilter_spec {R A : Type} (uc : UsersCache)
    (filter : UserData → Bool) (mapper : UserData → R) (reducer : List R → A) :
    uc.MapReduceUsersWithFilter filter mapper reducer
        = reducer (((uc.userDataById.map Prod.snd).filter filter).map mapper) ∧
    NewUsersCache.MapReduceUsersWithFilter filter mapper reducer = reducer [] := by
  constructor
  · rw [UsersCache.MapReduceUsersWithFilter, foldl_filter_map_singleton]
    simp
  · rfl

/-- C3: on the four demo users loaded by `LoadUsersDataFromDB`, the
aggregation with `excludeJohnFilter`, `userLevelMapper` and
`levelCountReducer` yields the mapping sending level 1 to count 3. -/
theorem aggregation_demo_yields_level1_count3 :
    (LoadUsersDataFromDB NewUsersCache).MapReduceUsersWithFilter
      excludeJohnFilter userLevelMapper levelCountReducer = [(1, 3)] := by
  decide

set_option maxRecDepth 4096 in
/-- C4 counterexample: the claim says the serialized output never
contains the (non-empty) `UserInternalData` value; but when that value
happens to equal a substring of the visible output, such as "uid", the
output does contain it. -/
theorem toApi_can_contain_internalData :
    (UserData.mk "uid_004" "John" 1 120 "uid").UserInternalData ≠ "" ∧
    (UserData.mk "uid_004" "John" 1 120 "uid").UserInternalData.data
      <:+: (UserData.mk "uid_004" "John" 1 120 "uid").ToApi.data := by
  decide

/-- C4 (amended): `ToApi` emits exactly the four visible fields under
the stable names uid, display_name, game_level, experience; its output
does not depend on `UserInternalData` at all, so whenever the internal
value does not already occur inside the rendering of the four visible
fields, the output does not contain it. -/
theorem toApi_emits_visible_fields_only (u : UserData) (s : String) :
    ({ u with UserInternalData := s } : UserData).ToApi = u.ToApi ∧
    u.ToApi = "\x7b\"uid\":" ++ jsonQuote u.UserId
      ++ ",\"display_name\":" ++ jsonQuote u.DisplayName
      ++ ",\"game_level\":" ++ toString u.GameLevel
      ++ ",\"experience\":" ++ toString u.Experience ++ "\x7d" ∧
    (¬ s.data <:+: u.ToApi.data →
      ¬ s.data <:+: ({ u with UserInternalData := s } : UserData).ToApi.data) := by
  exact ⟨rfl, rfl, fun h => h⟩

set_option maxRecDepth 4096 in
/-- C4 witness: for a concrete entity whose internal value "secret"
does not occur in the visible fields, the output indeed omits it. -/
theorem toApi_emits_visible_fields_only_witness :
    ¬ ("secret" : String).data
      <:+: ({ NewUserData "uid_001" "king" 1 100 with
                UserInternalData := "secret" } : UserData).ToApi.data :=
  (toApi_emits_visible_fields_only (NewUserData "uid_001" "king" 1 100) "secret").2.2
    (by decide)

/-- C5: `MustStringify` turns an encoding failure into the empty string
instead of propagating it, and on any well-formed `UserData` the
serialization `ToApi` does not fail: its result is non-empty. -/
theorem mustStringify_never_propagates (bytea : Option String) (u : UserData) :
    (bytea = none → MustStringify bytea = "") ∧ u.ToApi ≠ "" := by
  constructor
  · intro h
    rw [h]
    rfl
  · intro h
    have hlen := congrArg String.length h
    simp only [UserData.ToApi, jsonMarshal, MustStringify, String.length_append] at hlen
    rw [show ("\x7b\"uid\":" : String).length = 7 from rfl,
      show ("" : String).length = 0 from rfl] at hlen
    omega

/-- C5 witness: the failure branch returns `""`, and a concrete entity
serializes to a non-empty string. -/
theorem mustStringify_never_propagates_witness :
    MustStringify none = "" ∧ (NewUserData "uid_001" "king" 1 100).ToApi ≠ "" :=
  ⟨(mustStringify_never_propagates none (NewUserData "uid_001" "king" 1 100)).1 rfl,
   (mustStringify_never_propagates none (NewUserData "uid_001" "king" 1 100)).2⟩

/-- C6: after `AddUserData`, `GetUserData` observes each inserted id
with the found flag set; when several arguments share an id, the last
one in argument order is the one observed.  Here `u` is the last
argument with its id (`l₂` holds no entity with the same id). -/
theorem getUserData_after_addUserData (uc : UsersCache) (l₁ l₂ : List UserData)
    (u : UserData) (h : ∀ v ∈ l₂, v.UserId ≠ u.UserId) :
    (uc.AddUserData (l₁ ++ u :: l₂)).GetUserData u.UserId = (some u, true) := by
  have hl : mapLookup
      ((l₁ ++ u :: l₂).foldl (fun m user => mapInsert m user.UserId user) uc.userDataById)
      u.UserId = some u := by
    rw [List.foldl_append, List.foldl_cons,
      mapLookup_foldl_of_no_key l₂ u.UserId _ h, mapLookup_mapInsert_self]
  simp only [UsersCache.AddUserData, UsersCache.GetUserData, hl]

/-- C6 witness: inserting two entities with the same id in one call,
the later argument is the one a subsequent lookup observes. -/
theorem getUserData_after_addUserData_witness :
    (NewUsersCache.AddUserData
        [NewUserData "uid_001" "king" 1 100,
         NewUserData "uid_001" "KING" 2 200]).GetUserData "uid_001"
      = (some (NewUserData "uid_001" "KING" 2 200), true) :=
  getUserData_after_addUserData NewUsersCache [NewUserData "uid_001" "king" 1 100] []
    (NewUserData "uid_001" "KING" 2 200) (by simp)

/-- C7: inserting the same entity (same id, same field values) twice
leaves the registry state — hence every `GetUserData` observation —
exactly as after inserting it once. -/
theorem addUserData_idempotent (uc : UsersCache) (u : UserData) :
    (uc.AddUserData [u]).AddUserData [u] = uc.AddUserData [u] ∧
    ∀ userId : String,
      ((uc.AddUserData [u]).AddUserData [u]).GetUserData userId
        = (uc.AddUserData [u]).GetUserData userId := by
  have h : (uc.AddUserData [u]).AddUserData [u] = uc.AddUserData [u] :=
    congrArg UsersCache.mk (mapInsert_mapInsert_self uc.userDataById u.UserId u)
  exact ⟨h, fun userId => by rw [h]⟩

/-- C8: starting from the empty registry `NewUsersCache`, any sequence
of registry operations preserves the invariant that every key of the
map equals the `UserId` of the entity it maps to. -/
theorem registry_key_invariant (ops : List RegistryOp) (k : String) (u : UserData)
    (h : (k, u) ∈ (execOps NewUsersCache ops).userDataById) : k = u.UserId :=
  keysMatch_execOps ops NewUsersCache (fun p hp => absurd hp (List.not_mem_nil p)) (k, u) h

/-- C8 witness: a concrete operation sequence with a bulk insertion and
two reads; the key "uid_002" equals the stored entity's id. -/
theorem registry_key_invariant_witness :
    "uid_002" = (NewUserData "uid_002" "queen" 1 110).UserId :=
  registry_key_invariant
    [RegistryOp.add
        [NewUserData "uid_001" "king" 1 100, NewUserData "uid_002" "queen" 1 110],
     RegistryOp.get "uid_001", RegistryOp.safeCopy]
    "uid_002" (NewUserData "uid_002" "queen" 1 110) (by decide)

/-- C9: N concurrent `UpdateData` calls each adding the increment `k`
to `Experience` serialize through the entity's exclusive lock, so any
schedule is a sequential order of the N atomic increments; for an
in-range initial value the final experience is the int64 value of
initial + N·k, and exactly initial + N·k whenever that sum is
representable. -/
theorem no_lost_updates (u : UserData) (k : Int) (ops : List (UserData → UserData))
    (hops : ∀ f ∈ ops, f = incExperience k)
    (h₁ : -2 ^ 63 ≤ u.Experience) (h₂ : u.Experience < 2 ^ 63) :
    (runUpdates u ops).Experience = wrap64 (u.Experience + ops.length * k) ∧
    (-2 ^ 63 ≤ u.Experience + ops.length * k → u.Experience + ops.length * k < 2 ^ 63 →
      (runUpdates u ops).Experience = u.Experience + ops.length * k) := by
  have hmain := runUpdates_incExperience k ops u hops h₁ h₂
  exact ⟨hmain, fun hlo hhi => by rw [hmain, wrap64_eq_self _ hlo hhi]⟩

/-- C9 witness: three increments of 10 starting from experience 100
end at 130. -/
theorem no_lost_updates_witness :
    (runUpdates (NewUserData "uid_001" "king" 1 100)
        (List.replicate 3 (incExperience 10))).Experience = 130 := by
  have h := no_lost_updates (NewUserData "uid_001" "king" 1 100) 10
    (List.replicate 3 (incExperience 10))
    (fun f hf => List.eq_of_mem_replicate hf)
    (by norm_num [NewUserData]) (by norm_num [NewUserData])
  have key := h.2 (by norm_num [NewUserData, List.length_replicate])
    (by norm_num [NewUserData, List.length_replicate])
  rw [key]
  norm_num [NewUserData, List.length_replicate]

/-- C10: `GetUserData` on an id absent from the map returns the nil
reference (`none`) together with `found = false`, and as a read-only
operation leaves the registry state unchanged. -/
theorem getUserData_absent (uc : UsersCache) (userId : String)
    (h : ∀ p ∈ uc.userDataById, p.1 ≠ userId) :
    uc.GetUserData userId = (none, false) ∧ execOp uc (RegistryOp.get userId) = uc := by
  refine ⟨?_, rfl⟩
  simp only [UsersCache.GetUserData, mapLookup_of_no_key uc.userDataById userId h]

/-- C10 witness: looking up an id that was never inserted into the
demo registry yields the nil reference and a false flag. -/
theorem getUserData_absent_witness :
    (LoadUsersDataFromDB NewUsersCache).GetUserData "uid_999" = (none, false) :=
  (getUserData_absent (LoadUsersDataFromDB NewUsersCache) "uid_999" (by decide)).1
